import Mathlib

/-!
Shallow embedding of `src/aggregate_results.py`, the log aggregator of the
Joules-Per-Bit repository.

Modelling conventions:
* Python strings are `List Char` (`Str` below); file paths are represented by
  the file's name (the directory component is a fixed constant in the source
  and plays no role in the logic).
* IEEE-754 floats are modelled by `ℚ` with exact arithmetic.
* A cell of a power-log CSV row is represented by the outcome of Python's
  `float(...)` conversion applied to it: `some q` when the conversion
  succeeds with value `q`, `none` when it raises, or when the column is
  missing from the row (`KeyError`); the source treats all three failure
  modes identically (`except (ValueError, TypeError, KeyError)`).
* `ValueError` exceptions raised on filename mismatch become `Except.error`.
-/

abbrev Str := List Char

/-- Lower-case a string character by character (`str.lower()`). -/
def lowerStr (s : Str) : Str := s.map Char.toLower

/-- `needle` occurs as a contiguous substring of `hay` (Python `tok in s`). -/
def containsSub (hay needle : Str) : Bool :=
  match hay with
  | [] => needle.isEmpty
  | _ :: rest => needle.isPrefixOf hay || containsSub rest needle

/-- Whitespace characters recognised by Python's `str.strip()` (ASCII part). -/
def isPySpace (c : Char) : Bool :=
  c = ' ' || c = '\t' || c = '
' || c = '\x0d' || c = '\x0b' || c = '\x0c'

/-- Python `str.strip()`. -/
def pyStrip (s : Str) : Str :=
  (s.dropWhile isPySpace).reverse.dropWhile isPySpace |>.reverse

/-- Lexicographic comparison of strings by code point, as Python's `<=`
on `str` (and hence `sorted`) uses. -/
def strLe : Str → Str → Bool
  | [], _ => true
  | _ :: _, [] => false
  | a :: as, b :: bs =>
    if a.toNat < b.toNat then true
    else if b.toNat < a.toNat then false
    else strLe as bs

/-! ### FLOAT_RE extraction

`FLOAT_RE = re.compile(r"([-+]?\d+(?:\.\d+)?)")` and
`_extract_float` returns `float(m.group(1))` of the leftmost match. -/

/-- Numeric value of a run of decimal digits. -/
def natOfDigits (ds : Str) : ℕ :=
  ds.foldl (fun a c => 10 * a + (c.toNat - 48)) 0

/-- Try to match `[-+]?\d+(?:\.\d+)?` anchored at the start of `s`,
returning the float value of the matched literal. -/
def floatAt (s : Str) : Option ℚ :=
  let (sign, s1) : ℚ × Str :=
    match s with
    | '-' :: r => (-1, r)
    | '+' :: r => (1, r)
    | _ => (1, s)
  let ds := s1.takeWhile Char.isDigit
  let s2 := s1.dropWhile Char.isDigit
  if ds.isEmpty then none
  else
    let intPart : ℚ := natOfDigits ds
    match s2 with
    | '.' :: r =>
      let fs := r.takeWhile Char.isDigit
      if fs.isEmpty then some (sign * intPart)
      else some (sign * (intPart + (natOfDigits fs : ℚ) / (10 : ℚ) ^ fs.length))
    | _ => some (sign * intPart)

/-- `FLOAT_RE.search`: value of the leftmost float literal in the line,
`none` when the line holds no float literal (`_extract_float`). -/
def extract_float : Str → Option ℚ
  | [] => none
  | c :: rest =>
    match floatAt (c :: rest) with
    | some v => some v
    | none => extract_float rest

/-! ### Filename patterns

`SUMMARY_RE = ^summary_(?P<run_id>.+?)_(?P<mode>A2B|B2A|BOTH)\.txt$`
`POWER_RE   = ^run_(?P<run_id>.+?)_(?P<mode>A2B|B2A|BOTH)\.csv$` -/

inductive Mode where
  | A2B | B2A | BOTH
deriving DecidableEq, Repr

/-- The literal text of a mode tag. -/
def modeStr : Mode → Str
  | .A2B => ['A', '2', 'B']
  | .B2A => ['B', '2', 'A']
  | .BOTH => ['B', 'O', 'T', 'H']

/-- Strip a literal leading string, `none` when it is not a prefix. -/
def dropPre : Str → Str → Option Str
  | [], s => some s
  | _ :: _, [] => none
  | p :: ps, c :: cs => if p = c then dropPre ps cs else none

/-- Does `s` consist exactly of `_<mode><ext>`?  This is what the regex
demands right after the non-greedy `run_id` group. -/
def modeExtMatch (ext : Str) (s : Str) : Option Mode :=
  if s = '_' :: (modeStr .A2B ++ ext) then some .A2B
  else if s = '_' :: (modeStr .B2A ++ ext) then some .B2A
  else if s = '_' :: (modeStr .BOTH ++ ext) then some .BOTH
  else none

/-- Non-greedy scan for `(.+?)_(A2B|B2A|BOTH)<ext>$`: the shortest non-empty
run-id whose remainder is exactly `_<mode><ext>` wins. -/
def findSplit (ext : Str) : Str → Option (Str × Mode)
  | [] => none
  | c :: rest =>
    match modeExtMatch ext rest with
    | some m => some ([c], m)
    | none => (findSplit ext rest).map (fun rm => (c :: rm.1, rm.2))

/-- Full-anchored match of `^<pre>(.+?)_(A2B|B2A|BOTH)<ext>$` against a
file name, returning the captured `(run_id, mode)`. -/
def matchPat (pre ext name : Str) : Option (Str × Mode) :=
  match dropPre pre name with
  | none => none
  | some rest => findSplit ext rest

def summaryPre : Str := "summary_".toList
def powerPre : Str := "run_".toList
def txtExt : Str := ".txt".toList
def csvExt : Str := ".csv".toList

/-- `SUMMARY_RE.match(name)`. -/
def matchSummaryName (name : Str) : Option (Str × Mode) :=
  matchPat summaryPre txtExt name

/-- `POWER_RE.match(name)`. -/
def matchPowerName (name : Str) : Option (Str × Mode) :=
  matchPat powerPre csvExt name

/-! ### Column inference (`_pick_col`) -/

/-- Does the lower-cased header contain the token (`tok in h_lower[h]`)? -/
def hdrHas (h tok : Str) : Bool := containsSub (lowerStr h) tok

/-- `_pick_col(headers, must_contain_any, prefer_contain_any)`: first header
containing a "must" token; among those, the first containing a "prefer"
token when any does. -/
def pick_col (headers : List Str) (must pref : List Str) : Option Str :=
  let candidates := headers.filter (fun h => must.any (fun tok => hdrHas h tok))
  match candidates with
  | [] => none
  | _ :: _ =>
    if pref.isEmpty then candidates.head?
    else
      match candidates.filter (fun h => pref.any (fun tok => hdrHas h tok)) with
      | [] => candidates.head?
      | p :: _ => some p

def timeMust : List Str := ["elapsed".toList, "time".toList]
def timePref : List Str := ["elapsed time".toList, "elapsed".toList]
def powerMust : List Str := ["power".toList, "watt".toList]
def powerPref : List Str := ["package".toList, "processor".toList, "cpu".toList]

/-! ### Power CSV parsing (`parse_power_csv`) -/

/-- One `csv.DictReader` row: each header name maps to the outcome of
`float(...)` on the cell (see module comment). -/
abbrev CsvRow := List (Str × Option ℚ)

/-- The content of a power-log CSV file as seen through `csv.DictReader`:
`fieldnames` (`none` for an empty file) and the data rows. -/
structure PowerCSV where
  fieldnames : Option (List Str)
  rows : List CsvRow

/-- Value of column `col` in a row: `none` on missing key (`KeyError`) or
failed conversion. -/
def cellVal (row : CsvRow) (col : Str) : Option ℚ :=
  match row.lookup col with
  | some v => v
  | none => none

/-- The sample a row contributes for an (optional) selected column. -/
def sampleOf (col : Option Str) (row : CsvRow) : Option ℚ :=
  match col with
  | some c => cellVal row c
  | none => none

/-- The time column chosen for a header list. -/
def timeColOf (headers : List Str) : Option Str :=
  pick_col headers timeMust timePref

/-- The power column chosen for a header list. -/
def powerColOf (headers : List Str) : Option Str :=
  pick_col headers powerMust powerPref

/-- The list of valid time samples collected over the rows (row order). -/
def timesOf (headers : List Str) (rows : List CsvRow) : List ℚ :=
  rows.filterMap (sampleOf (timeColOf headers))

/-- The list of valid power samples collected over the rows (row order). -/
def powersOf (headers : List Str) (rows : List CsvRow) : List ℚ :=
  rows.filterMap (sampleOf (powerColOf headers))

/-- The inner loop of the rectangle rule: given the previous `(t, p)` pair,
add `p_i * (t_i - t_{i-1})` for each later pair whose time delta is
positive. -/
def rectAux : ℚ × ℚ → List (ℚ × ℚ) → ℚ
  | _, [] => 0
  | prev, z :: zs =>
    (if prev.1 < z.1 then z.2 * (z.1 - prev.1) else 0) + rectAux z zs

/-- Rectangle-rule energy over time/power samples: the two lists are
truncated to their common shortest length (`zip`), then
`Σ_{i≥1} p_i * (t_i - t_{i-1})` over intervals with positive delta. -/
def rectEnergy (times powers : List ℚ) : ℚ :=
  match times.zip powers with
  | [] => 0
  | z :: zs => rectAux z zs

/-- `mean(powers)` guarded by `if powers:`. -/
def avgOf (headers : List Str) (rows : List CsvRow) : Option ℚ :=
  let powers := powersOf headers rows
  if powers.isEmpty then none else some (powers.sum / powers.length)

/-- `times[-1] - times[0]` guarded by `if len(times) >= 2:`. -/
def durOf (headers : List Str) (rows : List CsvRow) : Option ℚ :=
  let times := timesOf headers rows
  if 2 ≤ times.length then some (times.getLastD 0 - times.headD 0) else none

/-- The primary energy estimate: rectangle-rule integration, performed only
when both sample lists hold at least 2 entries. -/
def energyPrimOf (headers : List Str) (rows : List CsvRow) : Option ℚ :=
  if 2 ≤ (timesOf headers rows).length ∧ 2 ≤ (powersOf headers rows).length
  then some (rectEnergy (timesOf headers rows) (powersOf headers rows))
  else none

/-- The energy written to the record: the primary estimate when available,
else `avg_power_W * duration_s` when both are, else absent. -/
def energyOf (headers : List Str) (rows : List CsvRow) : Option ℚ :=
  match energyPrimOf headers rows, avgOf headers rows, durOf headers rows with
  | none, some a, some d => some (a * d)
  | e, _, _ => e

/-- The record built by `parse_power_csv`. -/
structure PowerRecord where
  run_id : Str
  mode : Mode
  avg_power_W : Option ℚ
  duration_s : Option ℚ
  energy_J : Option ℚ
  powerlog_file : Option Str
  power_col_used : Option Str
  time_col_used : Option Str
deriving DecidableEq, Repr

/-- `parse_power_csv(path)`.  Raises (`Except.error`) exactly when the file
name does not match `POWER_RE`; an absent or empty header row returns the
all-absent record. -/
def parse_power_csv (name : Str) (csv : PowerCSV) : Except Str PowerRecord :=
  match matchPowerName name with
  | none => .error ("Unexpected powerlog filename: " ++ String.mk name).toList
  | some (rid, mode) =>
    let base : PowerRecord :=
      { run_id := rid, mode := mode, avg_power_W := none, duration_s := none,
        energy_J := none, powerlog_file := some name,
        power_col_used := none, time_col_used := none }
    match csv.fieldnames with
    | none => .ok base
    | some [] => .ok base
    | some headers =>
      .ok { base with
            avg_power_W := avgOf headers csv.rows,
            duration_s := durOf headers csv.rows,
            energy_J := energyOf headers csv.rows,
            power_col_used := powerColOf headers,
            time_col_used := timeColOf headers }

/-! ### Summary parsing (`parse_summary`) -/

/-- The section state of the line scanner: `None`, `"A2B"` or `"B2A"`. -/
inductive Sect where
  | noSec | secA2B | secB2A
deriving DecidableEq, Repr

/-- The record built by `parse_summary`. -/
structure SummaryRecord where
  run_id : Str
  mode : Mode
  H_before_A2B_bits : Option ℚ
  H_after_A2B_bits : Option ℚ
  delta_H_A2B_bits : Option ℚ
  H_before_B2A_bits : Option ℚ
  H_after_B2A_bits : Option ℚ
  delta_H_B2A_bits : Option ℚ
  order_effect_bits : Option ℚ
  summary_file : Str
deriving DecidableEq, Repr

/-- One iteration of the line loop of `parse_summary`: updates the section
state and at most one field of the record. -/
def stepLine (st : Sect × SummaryRecord) (line : Str) : Sect × SummaryRecord :=
  let sec := st.1
  let out := st.2
  let ls := pyStrip line
  if ls = "A → B".toList then (.secA2B, out)
  else if ls = "B → A".toList then (.secB2A, out)
  else if ("H_before:".toList).isPrefixOf ls then
    let v := extract_float ls
    match sec with
    | .secA2B => (sec, { out with H_before_A2B_bits := v })
    | .secB2A => (sec, { out with H_before_B2A_bits := v })
    | .noSec => (sec, out)
  else if ("H_after:".toList).isPrefixOf ls then
    let v := extract_float ls
    match sec with
    | .secA2B => (sec, { out with H_after_A2B_bits := v })
    | .secB2A => (sec, { out with H_after_B2A_bits := v })
    | .noSec => (sec, out)
  else if ("ΔH:".toList).isPrefixOf ls then
    let v := extract_float ls
    match sec with
    | .secA2B => (sec, { out with delta_H_A2B_bits := v })
    | .secB2A => (sec, { out with delta_H_B2A_bits := v })
    | .noSec => (sec, out)
  else if ("Order Effect".toList).isPrefixOf ls then
    (sec, { out with order_effect_bits := extract_float ls })
  else (sec, out)

/-- The record as initialised before the line loop. -/
def initSummary (rid : Str) (mode : Mode) (name : Str) : SummaryRecord :=
  { run_id := rid, mode := mode,
    H_before_A2B_bits := none, H_after_A2B_bits := none,
    delta_H_A2B_bits := none,
    H_before_B2A_bits := none, H_after_B2A_bits := none,
    delta_H_B2A_bits := none,
    order_effect_bits := none, summary_file := name }

/-- The record after the line loop, before the derived-order-effect rule. -/
def scanSummary (rid : Str) (mode : Mode) (name : Str) (lines : List Str) :
    SummaryRecord :=
  (lines.foldl stepLine (Sect.noSec, initSummary rid mode name)).2

/-- The derived-order-effect rule: when no order-effect value was stored and
both directional deltas are present, set it to `ΔH(A→B) − ΔH(B→A)`. -/
def deriveOrder (out : SummaryRecord) : SummaryRecord :=
  match out.order_effect_bits with
  | some _ => out
  | none =>
    match out.delta_H_A2B_bits, out.delta_H_B2A_bits with
    | some dA, some dB => { out with order_effect_bits := some (dA - dB) }
    | _, _ => out

/-- `parse_summary(path)` over the file's name and its lines
(`read_text().splitlines()`).  Raises (`Except.error`) exactly when the
name does not match `SUMMARY_RE`. -/
def parse_summary (name : Str) (lines : List Str) : Except Str SummaryRecord :=
  match matchSummaryName name with
  | none => .error ("Unexpected summary filename: " ++ String.mk name).toList
  | some (rid, mode) => .ok (deriveOrder (scanSummary rid mode name lines))

/-! ### Aggregation (`main`) -/

/-- Strip a literal trailing string, `none` when it is not a suffix. -/
def dropSuf (ext s : Str) : Option Str :=
  if ext.isSuffixOf s then some (s.take (s.length - ext.length)) else none

/-- Glob match for `<pre>*_*<ext>`: the name is `pre ++ a ++ "_" ++ b ++ ext`
for some (possibly empty) `a`, `b`. -/
def globMatch (pre ext name : Str) : Bool :=
  match dropPre pre name with
  | none => false
  | some rest =>
    match dropSuf ext rest with
    | none => false
    | some mid => mid.contains '_'

/-- The logs directory as the aggregator sees it: text files with their
lines, CSV files with their `DictReader` view.  File names inside one
directory are unique. -/
structure LogsDir where
  txtFiles : List (Str × List Str)
  csvFiles : List (Str × PowerCSV)

/-- Insert `x` into `l` after every element `y` with `le y x` (the
insertion step of a stable insertion sort). -/
def insertS {α : Type} (le : α → α → Bool) (x : α) : List α → List α
  | [] => [x]
  | y :: ys => if le y x then y :: insertS le x ys else x :: y :: ys

/-- Stable sort by repeated insertion.  Python's `sorted` is a stable sort,
and all stable sorts of a list under the same total preorder produce the
same output, so this models `sorted` exactly. -/
def sortS {α : Type} (le : α → α → Bool) (l : List α) : List α :=
  l.foldl (fun acc x => insertS le x acc) []

/-- `sorted(LOGS_DIR.glob("summary_*_*.txt"))`: the matching text files in
ascending name order (Python sorts paths lexicographically; the shared
directory component keeps the order of the bare names). -/
def sortedSummaries (d : LogsDir) : List (Str × List Str) :=
  sortS (fun a b => strLe a.1 b.1)
    (d.txtFiles.filter (fun f => globMatch summaryPre txtExt f.1))

/-- `{p.name: p for p in LOGS_DIR.glob("run_*_*.csv")}`. -/
def powerMap (d : LogsDir) : List (Str × PowerCSV) :=
  d.csvFiles.filter (fun f => globMatch powerPre csvExt f.1)

/-- `f"run_{run_id}_{mode}.csv"`, the join key. -/
def expectedPowerName (rid : Str) (mode : Mode) : Str :=
  powerPre ++ rid ++ '_' :: (modeStr mode ++ csvExt)

/-- One output row of the aggregate CSV. -/
structure Row where
  run_id : Str
  mode : Mode
  energy_J : Option ℚ
  avg_power_W : Option ℚ
  duration_s : Option ℚ
  H_before_A2B_bits : Option ℚ
  H_after_A2B_bits : Option ℚ
  delta_H_A2B_bits : Option ℚ
  H_before_B2A_bits : Option ℚ
  H_after_B2A_bits : Option ℚ
  delta_H_B2A_bits : Option ℚ
  order_effect_bits : Option ℚ
  summary_file : Str
  powerlog_file : Option Str
  power_col_used : Option Str
  time_col_used : Option Str
deriving DecidableEq, Repr

/-- Merge a summary record and the (possibly absent) power record into one
output row; `none` stands for the all-`None` dict used when no power log
was found. -/
def mkRow (s : SummaryRecord) (p : Option PowerRecord) : Row :=
  { run_id := s.run_id, mode := s.mode,
    energy_J := p.bind (fun q => q.energy_J),
    avg_power_W := p.bind (fun q => q.avg_power_W),
    duration_s := p.bind (fun q => q.duration_s),
    H_before_A2B_bits := s.H_before_A2B_bits,
    H_after_A2B_bits := s.H_after_A2B_bits,
    delta_H_A2B_bits := s.delta_H_A2B_bits,
    H_before_B2A_bits := s.H_before_B2A_bits,
    H_after_B2A_bits := s.H_after_B2A_bits,
    delta_H_B2A_bits := s.delta_H_B2A_bits,
    order_effect_bits := s.order_effect_bits,
    summary_file := s.summary_file,
    powerlog_file := p.bind (fun q => q.powerlog_file),
    power_col_used := p.bind (fun q => q.power_col_used),
    time_col_used := p.bind (fun q => q.time_col_used) }

/-- Loop body of `main`: parse one summary file, look its power log up by
the constructed name, parse it when found, and build the row.  The first
exception aborts the whole run. -/
def processOne (pmap : List (Str × PowerCSV)) (f : Str × List Str) :
    Except Str Row :=
  match parse_summary f.1 f.2 with
  | .error e => .error e
  | .ok s =>
    match pmap.lookup (expectedPowerName s.run_id s.mode) with
    | some csv =>
      match parse_power_csv (expectedPowerName s.run_id s.mode) csv with
      | .error e => .error e
      | .ok p => .ok (mkRow s (some p))
    | none => .ok (mkRow s none)

/-- The `for sfile in summary_files:` loop: builds the row list in order,
aborting on the first exception. -/
def buildRows {α : Type} (proc : α → Except Str Row) :
    List α → Except Str (List Row)
  | [] => .ok []
  | f :: fs =>
    match proc f with
    | .error e => .error e
    | .ok row =>
      match buildRows proc fs with
      | .error e => .error e
      | .ok rest => .ok (row :: rest)

/-- `main()` up to CSV writing: the list of rows written, in order, or the
first uncaught exception. -/
def aggregate (d : LogsDir) : Except Str (List Row) :=
  buildRows (processOne (powerMap d)) (sortedSummaries d)

/-! ### The tabular summary variant

The spec describes a second, near-duplicate implementation whose summary
artifacts are single-row CSVs named `summary_<run_id>_<mode>.csv`; that
file is not under `src/`, so it is modelled here from the spec. -/

/-- Modelled from the spec: Python `float()` on a cell of the tabular
summary (the tabular-variant source is missing from `src/`).  Accepts an
optionally signed decimal literal, with digits on at least one side of the
optional point, surrounded by optional whitespace. -/
def pyFloatQ (s : Str) : Option ℚ :=
  let t := pyStrip s
  let (sign, t1) : ℚ × Str :=
    match t with
    | '-' :: r => (-1, r)
    | '+' :: r => (1, r)
    | _ => (1, t)
  let ds := t1.takeWhile Char.isDigit
  let t2 := t1.dropWhile Char.isDigit
  match t2 with
  | [] => if ds.isEmpty then none else some (sign * (natOfDigits ds : ℚ))
  | '.' :: r =>
    let fs := r.takeWhile Char.isDigit
    let t3 := r.dropWhile Char.isDigit
    if t3.isEmpty ∧ ¬(ds.isEmpty ∧ fs.isEmpty) then
      some (sign * ((natOfDigits ds : ℚ) +
        (natOfDigits fs : ℚ) / (10 : ℚ) ^ fs.length))
    else none
  | _ => none

/-- Modelled from the spec: one recognised field of the tabular summary row
(a key→string mapping): converted to float if present, non-empty, and not
the literal string `"none"` (case-insensitively), else absent. -/
def tabField (row : List (Str × Str)) (key : Str) : Option ℚ :=
  match row.lookup key with
  | none => none
  | some v =>
    if v.isEmpty then none
    else if lowerStr v = "none".toList then none
    else pyFloatQ v

/-- Modelled from the spec: the tabular-variant summary parser (source
missing from `src/`).  Fails with FormatError when the name does not match
`summary_<run_id>_<mode>.csv`, with EmptyInputError when the artifact has
no data rows; otherwise reads the first data row and applies the
derived-order-effect rule. -/
def parse_summary_tab (name : Str) (rows : List (List (Str × Str))) :
    Except Str SummaryRecord :=
  match matchPat summaryPre csvExt name with
  | none => .error ("Unexpected summary filename: " ++ String.mk name).toList
  | some (rid, mode) =>
    match rows with
    | [] => .error ("No data rows in: " ++ String.mk name).toList
    | row :: _ =>
      .ok (deriveOrder
        { run_id := rid, mode := mode,
          H_before_A2B_bits := tabField row "H_before_A2B_bits".toList,
          H_after_A2B_bits := tabField row "H_after_A2B_bits".toList,
          delta_H_A2B_bits := tabField row "delta_H_A2B_bits".toList,
          H_before_B2A_bits := tabField row "H_before_B2A_bits".toList,
          H_after_B2A_bits := tabField row "H_after_B2A_bits".toList,
          delta_H_B2A_bits := tabField row "delta_H_B2A_bits".toList,
          order_effect_bits := tabField row "order_effect_bits".toList,
          summary_file := name })

/-- The logs directory as the tabular-variant aggregator sees it. -/
structure TabDir where
  summaryCsvs : List (Str × List (List (Str × Str)))
  powerCsvs : List (Str × PowerCSV)

/-- Modelled from the spec: the loop body of the tabular-variant
aggregator (source missing from `src/`); identical to `processOne` except
for the summary parser. -/
def processOneTab (pmap : List (Str × PowerCSV))
    (f : Str × List (List (Str × Str))) : Except Str Row :=
  match parse_summary_tab f.1 f.2 with
  | .error e => .error e
  | .ok s =>
    match pmap.lookup (expectedPowerName s.run_id s.mode) with
    | some csv =>
      match parse_power_csv (expectedPowerName s.run_id s.mode) csv with
      | .error e => .error e
      | .ok p => .ok (mkRow s (some p))
    | none => .ok (mkRow s none)

/-- Modelled from the spec: the tabular-variant aggregator (source missing
from `src/`); identical to `aggregate` except that summaries are discovered
by `summary_*_*.csv` and parsed by the tabular parser. -/
def aggregateTab (d : TabDir) : Except Str (List Row) :=
  buildRows
    (processOneTab (d.powerCsvs.filter
      (fun f => globMatch powerPre csvExt f.1)))
    (sortS (fun a b => strLe a.1 b.1)
      (d.summaryCsvs.filter (fun f => globMatch summaryPre csvExt f.1)))

/-! ### Pattern-matching lemmas -/

/-- The language of `^<pre>(.+?)_(A2B|B2A|BOTH)<ext>$`. -/
def NamePat (pre ext name : Str) : Prop :=
  ∃ rid m, rid ≠ [] ∧ name = pre ++ (rid ++ '_' :: (modeStr m ++ ext))

theorem dropPre_eq_some :
    ∀ (p s r : Str), dropPre p s = some r ↔ s = p ++ r := by
  intro p
  induction p with
  | nil => intro s r; simp [dropPre]
  | cons c cs ih =>
    intro s r
    cases s with
    | nil => simp [dropPre]
    | cons a as =>
      simp only [dropPre, List.cons_append, List.cons.injEq]
      by_cases h : c = a
      · subst h; simp [ih]
      · rw [if_neg h]
        constructor
        · intro hx; simp at hx
        · rintro ⟨h1, h2⟩; exact absurd h1.symm h

theorem modeExtMatch_eq_some (ext s : Str) (m : Mode) :
    modeExtMatch ext s = some m ↔ s = '_' :: (modeStr m ++ ext) := by
  constructor
  · intro h
    unfold modeExtMatch at h
    split_ifs at h with h1 h2 h3 <;> simp_all
  · intro h
    subst h
    cases m <;> simp [modeExtMatch, modeStr]

theorem findSplit_eq_some (ext : Str) :
    ∀ (s rid : Str) (m : Mode), findSplit ext s = some (rid, m) →
      rid ≠ [] ∧ s = rid ++ '_' :: (modeStr m ++ ext) := by
  intro s
  induction s with
  | nil => intro rid m h; simp [findSplit] at h
  | cons c rest ih =>
    intro rid m h
    rw [findSplit] at h
    cases hm : modeExtMatch ext rest with
    | some m0 =>
      rw [hm] at h
      simp only [Option.some.injEq, Prod.mk.injEq] at h
      obtain ⟨h1, h2⟩ := h
      have he := (modeExtMatch_eq_some ext rest m0).mp hm
      refine ⟨?_, ?_⟩
      · rw [← h1]; simp
      · rw [← h1, ← h2]; simp [he]
    | none =>
      rw [hm] at h
      cases hr : findSplit ext rest with
      | none => rw [hr] at h; simp at h
      | some rm =>
        rw [hr] at h
        obtain ⟨rid0, m0⟩ := rm
        simp only [Option.map_some', Option.some.injEq, Prod.mk.injEq] at h
        obtain ⟨h1, h2⟩ := h
        obtain ⟨hne, hs⟩ := ih rid0 m0 hr
        refine ⟨?_, ?_⟩
        · rw [← h1]; simp
        · rw [← h1, ← h2]; simp [hs]

theorem findSplit_isSome (ext : Str) :
    ∀ (rid : Str) (m : Mode), rid ≠ [] →
      (findSplit ext (rid ++ '_' :: (modeStr m ++ ext))).isSome := by
  intro rid
  induction rid with
  | nil => intro m h; exact absurd rfl h
  | cons c cs ih =>
    intro m _
    rw [List.cons_append, findSplit]
    cases hm : modeExtMatch ext (cs ++ '_' :: (modeStr m ++ ext)) with
    | some m0 => simp
    | none =>
      cases hcs : cs with
      | nil =>
        subst hcs
        rw [List.nil_append] at hm
        rw [(modeExtMatch_eq_some ext ('_' :: (modeStr m ++ ext)) m).mpr rfl]
          at hm
        exact Option.noConfusion hm
      | cons d ds =>
        subst hcs
        have h2 := ih m (by simp)
        simpa using h2

theorem matchPat_isSome_iff (pre ext name : Str) :
    (matchPat pre ext name).isSome ↔ NamePat pre ext name := by
  unfold matchPat NamePat
  cases hd : dropPre pre name with
  | none =>
    simp only [Option.isSome_none, Bool.false_eq_true, false_iff]
    rintro ⟨rid, m, hne, hname⟩
    have hc := (dropPre_eq_some pre name (rid ++ '_' :: (modeStr m ++ ext))).mpr
      hname
    rw [hd] at hc
    exact Option.noConfusion hc
  | some rest =>
    have hrest : name = pre ++ rest := (dropPre_eq_some pre name rest).mp hd
    constructor
    · intro h
      obtain ⟨⟨rid, m⟩, hs⟩ := Option.isSome_iff_exists.mp h
      obtain ⟨hne, he⟩ := findSplit_eq_some ext rest rid m hs
      exact ⟨rid, m, hne, by rw [hrest, he]⟩
    · rintro ⟨rid, m, hne, hname⟩
      have he : rest = rid ++ '_' :: (modeStr m ++ ext) := by
        have hcat : pre ++ rest = pre ++ (rid ++ '_' :: (modeStr m ++ ext)) := by
          rw [← hrest, hname]
        exact List.append_cancel_left hcat
      rw [he]
      exact findSplit_isSome ext rid m hne

/-- Shape of a successful `parse_power_csv` with a non-empty header row. -/
theorem parse_power_ok (name : Str) (csv : PowerCSV) (rid : Str) (m : Mode)
    (headers : List Str) (h1 : matchPowerName name = some (rid, m))
    (h2 : csv.fieldnames = some headers) (h3 : headers ≠ []) :
    parse_power_csv name csv = .ok
      { run_id := rid, mode := m,
        avg_power_W := avgOf headers csv.rows,
        duration_s := durOf headers csv.rows,
        energy_J := energyOf headers csv.rows,
        powerlog_file := some name,
        power_col_used := powerColOf headers,
        time_col_used := timeColOf headers } := by
  unfold parse_power_csv
  rw [h1, h2]
  cases headers with
  | nil => exact absurd rfl h3
  | cons a as => rfl

/-- C4: an artifact whose file name does not match the expected pattern of
its class (`summary_<run_id>_<mode>.txt` for the summary parser,
`run_<run_id>_<mode>.csv` for the power-log parser) makes the parse raise,
and a matching name never raises: success is equivalent to the name lying
in the pattern's language. -/
theorem claim_c4 (name : Str) (lines : List Str) (csv : PowerCSV) :
    ((∃ s, parse_summary name lines = .ok s) ↔ NamePat summaryPre txtExt name)
    ∧ ((∃ p, parse_power_csv name csv = .ok p) ↔
        NamePat powerPre csvExt name) := by
  constructor
  · cases hs : matchSummaryName name with
    | none =>
      constructor
      · rintro ⟨s, h⟩
        unfold parse_summary at h
        rw [hs] at h
        exact Except.noConfusion h
      · intro hp
        have hi := (matchPat_isSome_iff summaryPre txtExt name).mpr hp
        unfold matchSummaryName at hs
        rw [hs] at hi
        exact Bool.noConfusion hi
    | some rm =>
      obtain ⟨rid, m⟩ := rm
      constructor
      · intro _
        apply (matchPat_isSome_iff summaryPre txtExt name).mp
        unfold matchSummaryName at hs
        rw [hs]
        rfl
      · intro _
        refine ⟨deriveOrder (scanSummary rid m name lines), ?_⟩
        unfold parse_summary
        rw [hs]
  · cases hs : matchPowerName name with
    | none =>
      constructor
      · rintro ⟨p, h⟩
        unfold parse_power_csv at h
        rw [hs] at h
        exact Except.noConfusion h
      · intro hp
        have hi := (matchPat_isSome_iff powerPre csvExt name).mpr hp
        unfold matchPowerName at hs
        rw [hs] at hi
        exact Bool.noConfusion hi
    | some rm =>
      obtain ⟨rid, m⟩ := rm
      constructor
      · intro _
        apply (matchPat_isSome_iff powerPre csvExt name).mp
        unfold matchPowerName at hs
        rw [hs]
        rfl
      · intro _
        unfold parse_power_csv
        rw [hs]
        cases h2 : csv.fieldnames with
        | none => exact ⟨_, rfl⟩
        | some headers =>
          cases headers with
          | nil => exact ⟨_, rfl⟩
          | cons a as => exact ⟨_, rfl⟩

/-- C9: a power-log file with a matching name but no header row (for
example an empty file) parses without error into a record whose
measurement fields (`avg_power_W`, `duration_s`, `energy_J`) and
column-provenance fields (`power_col_used`, `time_col_used`) are all
absent. -/
theorem claim_c9 (name : Str) (csv : PowerCSV) (rid : Str) (m : Mode)
    (h1 : matchPowerName name = some (rid, m))
    (h2 : csv.fieldnames = none) :
    parse_power_csv name csv = .ok
      { run_id := rid, mode := m,
        avg_power_W := none, duration_s := none, energy_J := none,
        powerlog_file := some name,
        power_col_used := none, time_col_used := none } := by
  unfold parse_power_csv
  rw [h1, h2]

/-- Witness for C9 at the empty file `run_r1_A2B.csv`. -/
theorem claim_c9_w :
    matchPowerName ("run_r1_A2B.csv".toList) = some ("r1".toList, .A2B) ∧
    parse_power_csv ("run_r1_A2B.csv".toList) ⟨none, []⟩ = .ok
      { run_id := "r1".toList, mode := .A2B,
        avg_power_W := none, duration_s := none, energy_J := none,
        powerlog_file := some ("run_r1_A2B.csv".toList),
        power_col_used := none, time_col_used := none } :=
  ⟨rfl, claim_c9 ("run_r1_A2B.csv".toList) ⟨none, []⟩ ("r1".toList) .A2B rfl
    rfl⟩

/-- C2: in a parsed summary record, when the line scan stored no explicit
order-effect value, the final record's order effect is `ΔH(A→B) − ΔH(B→A)`
whenever both deltas are present, and stays absent when either delta is
absent. -/
theorem claim_c2 (name : Str) (lines : List Str) (rid : Str) (m : Mode)
    (s : SummaryRecord)
    (hname : matchSummaryName name = some (rid, m))
    (hok : parse_summary name lines = .ok s)
    (hraw : (scanSummary rid m name lines).order_effect_bits = none) :
    (∀ dA dB, (scanSummary rid m name lines).delta_H_A2B_bits = some dA →
      (scanSummary rid m name lines).delta_H_B2A_bits = some dB →
      s.order_effect_bits = some (dA - dB)) ∧
    (((scanSummary rid m name lines).delta_H_A2B_bits = none ∨
      (scanSummary rid m name lines).delta_H_B2A_bits = none) →
      s.order_effect_bits = none) := by
  unfold parse_summary at hok
  rw [hname] at hok
  have hs : s = deriveOrder (scanSummary rid m name lines) := by
    cases hok
    rfl
  subst hs
  constructor
  · intro dA dB hA hB
    unfold deriveOrder
    rw [hraw, hA, hB]
  · intro hab
    unfold deriveOrder
    rw [hraw]
    rcases hab with h | h
    · rw [h]
      cases (scanSummary rid m name lines).delta_H_B2A_bits <;> simp [hraw]
    · rw [h]
      cases (scanSummary rid m name lines).delta_H_A2B_bits <;> simp [hraw]

def c2Name : Str := "summary_r_A2B.txt".toList
def c2Lines : List Str :=
  ["A → B".toList, "ΔH: 2".toList, "B → A".toList, "ΔH: 0.5".toList]

/-- Witness for C2: a summary with `ΔH(A→B)=2`, `ΔH(B→A)=0.5` and no
explicit order-effect line yields order effect `1.5`. -/
theorem claim_c2_w :
    ∃ s, parse_summary c2Name c2Lines = .ok s ∧
      s.order_effect_bits = some (3 / 2) := by
  have hA : (scanSummary ("r".toList) .A2B c2Name c2Lines).delta_H_A2B_bits =
      some 2 := by with_unfolding_all rfl
  have hB : (scanSummary ("r".toList) .A2B c2Name c2Lines).delta_H_B2A_bits =
      some (1 / 2) := by with_unfolding_all rfl
  have hO : (scanSummary ("r".toList) .A2B c2Name c2Lines).order_effect_bits =
      none := by with_unfolding_all rfl
  refine ⟨deriveOrder (scanSummary ("r".toList) .A2B c2Name c2Lines),
    by with_unfolding_all rfl, ?_⟩
  have h := (claim_c2 c2Name c2Lines ("r".toList) .A2B
    (deriveOrder (scanSummary ("r".toList) .A2B c2Name c2Lines))
    (by with_unfolding_all rfl) (by with_unfolding_all rfl) hO).1
    2 (1 / 2) hA hB
  rw [h]
  norm_num

/-- `(l.filter p).head?` is the first element satisfying `p`. -/
theorem filter_head?_eq_find? (p : Str → Bool) :
    ∀ (l : List Str), (l.filter p).head? = l.find? p := by
  intro l
  induction l with
  | nil => rfl
  | cons a as ih =>
    by_cases h : p a
    · rw [List.filter_cons_of_pos h, List.find?_cons_of_pos _ h]
      rfl
    · rw [List.filter_cons_of_neg h, List.find?_cons_of_neg _ h]
      exact ih

/-- C3: `_pick_col` returns the first header (in original column order)
whose lowercase form contains a "prefer" token among those containing a
"must" token, else the first header containing a "must" token, else
absent; in particular on the headers
`["Cumulative Processor Power_0(Watt)", "Elapsed Time (sec)"]` the power
tokens select the first header and the time tokens select the second. -/
theorem claim_c3 :
    (∀ (headers must pref : List Str),
      pick_col headers must pref =
        match (headers.filter (fun h => must.any (fun tok => hdrHas h tok))
            ).find? (fun h => pref.any (fun tok => hdrHas h tok)) with
        | some h => some h
        | none => headers.find? (fun h => must.any (fun tok => hdrHas h tok)))
    ∧ pick_col ["Cumulative Processor Power_0(Watt)".toList,
        "Elapsed Time (sec)".toList] powerMust powerPref =
      some ("Cumulative Processor Power_0(Watt)".toList)
    ∧ pick_col ["Cumulative Processor Power_0(Watt)".toList,
        "Elapsed Time (sec)".toList] timeMust timePref =
      some ("Elapsed Time (sec)".toList) := by
  refine ⟨?_, by decide, by decide⟩
  intro headers must pref
  have hmust : headers.find? (fun h => must.any (fun tok => hdrHas h tok)) =
      (headers.filter (fun h => must.any (fun tok => hdrHas h tok))).head? :=
    (filter_head?_eq_find? _ headers).symm
  simp only [pick_col]
  cases hc : headers.filter (fun h => must.any (fun tok => hdrHas h tok)) with
  | nil =>
    rw [hmust, hc]
    rfl
  | cons c cs =>
    by_cases hp : pref = []
    · subst hp
      have hfind : List.find? (fun h => List.any [] (fun tok => hdrHas h tok))
          (c :: cs) = none :=
        List.find?_eq_none.mpr (by simp)
      rw [hfind, hmust, hc]
      rfl
    · have hne : pref.isEmpty = false := by
        cases pref with
        | nil => exact absurd rfl hp
        | cons x xs => rfl
      rw [hne]
      have hfc := filter_head?_eq_find?
        (fun h => pref.any (fun tok => hdrHas h tok)) (c :: cs)
      cases hf : (c :: cs).filter (fun h => pref.any (fun tok => hdrHas h tok))
        with
      | nil =>
        rw [hf] at hfc
        rw [← hfc, hmust, hc]
        rfl
      | cons d ds =>
        rw [hf] at hfc
        rw [← hfc]
        rfl

/-- `rectAux` as an indexed sum over the list of pairs. -/
theorem rectAux_eq_sum :
    ∀ (l : List (ℚ × ℚ)) (z : ℚ × ℚ),
      rectAux z l = ∑ i ∈ Finset.range l.length,
        (if ((z :: l).getD i (0, 0)).1 < (l.getD i (0, 0)).1
         then (l.getD i (0, 0)).2 *
           ((l.getD i (0, 0)).1 - ((z :: l).getD i (0, 0)).1)
         else 0) := by
  intro l
  induction l with
  | nil => intro z; simp [rectAux]
  | cons w ws ih =>
    intro z
    rw [List.length_cons, Finset.sum_range_succ']
    simp only [List.getD_cons_succ, List.getD_cons_zero]
    rw [← ih w]
    rw [show rectAux z (w :: ws) =
      (if z.1 < w.1 then w.2 * (w.1 - z.1) else 0) + rectAux w ws from rfl]
    exact add_comm _ _

/-- Entry `i` of a zip of two sample lists. -/
theorem zip_getD : ∀ (ts ps : List ℚ) (i : ℕ), i < (ts.zip ps).length →
    (ts.zip ps).getD i (0, 0) = (ts.getD i 0, ps.getD i 0)
  | [], _, i, h => by simp at h
  | _ :: _, [], i, h => by simp at h
  | t :: ts, p :: ps, 0, _ => rfl
  | t :: ts, p :: ps, (i+1), h => by
    simp only [List.zip_cons_cons, List.getD_cons_succ]
    exact zip_getD ts ps i (by
      simp only [List.zip_cons_cons, List.length_cons] at h
      omega)

/-- `rectEnergy` is the rectangle-rule sum of the claim: over
`i = 1 .. n−1` with `n` the common shortest length, each interval with a
positive time delta contributes `power[i] * (time[i] − time[i−1])` and
every other interval contributes zero. -/
theorem rectEnergy_eq_sum (ts ps : List ℚ) :
    rectEnergy ts ps = ∑ i ∈ Finset.Ico 1 (min ts.length ps.length),
      (if ts.getD (i-1) 0 < ts.getD i 0
       then ps.getD i 0 * (ts.getD i 0 - ts.getD (i-1) 0) else 0) := by
  have hlen : (ts.zip ps).length = min ts.length ps.length :=
    List.length_zip ts ps
  unfold rectEnergy
  cases hz : ts.zip ps with
  | nil =>
    rw [hz] at hlen
    simp only [List.length_nil] at hlen
    rw [← hlen]
    simp
  | cons z zs =>
    rw [hz] at hlen
    simp only [List.length_cons] at hlen
    rw [← hlen]
    show rectAux z zs = _
    rw [rectAux_eq_sum, Finset.sum_Ico_eq_sum_range]
    simp only [Nat.add_sub_cancel]
    apply Finset.sum_congr rfl
    intro i hi
    have hi' : i < zs.length := Finset.mem_range.mp hi
    have e1 : (z :: zs).getD i (0, 0) = (ts.getD i 0, ps.getD i 0) := by
      rw [← hz]
      exact zip_getD ts ps i (by rw [hz]; simp; omega)
    have e2 : zs.getD i (0, 0) = (ts.getD (i+1) 0, ps.getD (i+1) 0) := by
      rw [show zs.getD i (0, 0) = (z :: zs).getD (i+1) (0, 0) from rfl, ← hz]
      exact zip_getD ts ps (i+1) (by rw [hz]; simp; omega)
    have e3 : 1 + i - 1 = i := by omega
    have e4 : 1 + i = i + 1 := by omega
    rw [e1, e2, e3, e4]

/-- The energy field equals the primary estimate whenever the latter is
available. -/
theorem energyOf_prim_some (headers : List Str) (rows : List CsvRow) (e : ℚ)
    (h : energyPrimOf headers rows = some e) :
    energyOf headers rows = some e := by
  unfold energyOf
  rw [h]

/-- C1: when at least 2 valid time samples and at least 2 valid power
samples were collected, `energy_J` is the rectangle-rule sum over
`i = 1 .. n−1` of `power[i] * (time[i] − time[i−1])` with the sequences
truncated to their common shortest length `n` and nonpositive time deltas
contributing zero. -/
theorem claim_c1 (name : Str) (csv : PowerCSV) (rid : Str) (m : Mode)
    (headers : List Str)
    (h1 : matchPowerName name = some (rid, m))
    (h2 : csv.fieldnames = some headers) (h3 : headers ≠ [])
    (h4 : 2 ≤ (timesOf headers csv.rows).length)
    (h5 : 2 ≤ (powersOf headers csv.rows).length) :
    ∃ r, parse_power_csv name csv = .ok r ∧
      r.energy_J = some (∑ i ∈ Finset.Ico 1
        (min (timesOf headers csv.rows).length
          (powersOf headers csv.rows).length),
        (if (timesOf headers csv.rows).getD (i-1) 0 <
            (timesOf headers csv.rows).getD i 0
         then (powersOf headers csv.rows).getD i 0 *
           ((timesOf headers csv.rows).getD i 0 -
            (timesOf headers csv.rows).getD (i-1) 0)
         else 0)) := by
  refine ⟨_, parse_power_ok name csv rid m headers h1 h2 h3, ?_⟩
  show energyOf headers csv.rows = _
  rw [energyOf_prim_some headers csv.rows
    (rectEnergy (timesOf headers csv.rows) (powersOf headers csv.rows))
    (by unfold energyPrimOf; rw [if_pos ⟨h4, h5⟩])]
  rw [rectEnergy_eq_sum]

def c1Name : Str := "run_r1_A2B.csv".toList
def c1THdr : Str := "Elapsed Time (sec)".toList
def c1PHdr : Str := "Processor Power_0(Watt)".toList
def c1Headers : List Str := [c1THdr, c1PHdr]
def c1Csv : PowerCSV :=
  ⟨some c1Headers,
   [[(c1THdr, some 0), (c1PHdr, some 10)],
    [(c1THdr, some 1), (c1PHdr, some 20)],
    [(c1THdr, some 2), (c1PHdr, some 30)]]⟩

/-- Witness for C1: time samples `[0, 1, 2]` and power samples
`[10, 20, 30]` give energy `20*1 + 30*1 = 50`. -/
theorem claim_c1_w :
    ∃ r, parse_power_csv c1Name c1Csv = .ok r ∧ r.energy_J = some 50 := by
  obtain ⟨r, hok, he⟩ := claim_c1 c1Name c1Csv ("r1".toList) .A2B c1Headers
    (by with_unfolding_all rfl) rfl (by decide) (by decide) (by decide)
  refine ⟨r, hok, ?_⟩
  rw [he]
  with_unfolding_all rfl

/-- Each summand of `rectAux` is nonnegative when all powers are. -/
theorem rectAux_nonneg :
    ∀ (l : List (ℚ × ℚ)), (∀ z ∈ l, 0 ≤ z.2) →
      ∀ (w : ℚ × ℚ), 0 ≤ rectAux w l := by
  intro l
  induction l with
  | nil => intro _ w; exact le_refl 0
  | cons z zs ih =>
    intro hp w
    rw [show rectAux w (z :: zs) =
      (if w.1 < z.1 then z.2 * (z.1 - w.1) else 0) + rectAux z zs from rfl]
    apply add_nonneg
    · by_cases hlt : w.1 < z.1
      · rw [if_pos hlt]
        exact mul_nonneg (hp z (List.mem_cons_self z zs))
          (by linarith)
      · rw [if_neg hlt]
    · exact ih (fun y hy => hp y (List.mem_cons_of_mem z hy)) z

/-- The rectangle-rule energy is nonnegative when all collected power
samples are nonnegative. -/
theorem rectEnergy_nonneg (ts ps : List ℚ) (hp : ∀ p ∈ ps, 0 ≤ p) :
    0 ≤ rectEnergy ts ps := by
  unfold rectEnergy
  cases hz : ts.zip ps with
  | nil => exact le_refl 0
  | cons z zs =>
    apply rectAux_nonneg
    intro w hw
    obtain ⟨a, b⟩ := w
    have hmem : (a, b) ∈ ts.zip ps := by
      rw [hz]
      exact List.mem_cons_of_mem z hw
    exact hp b (List.of_mem_zip hmem).2

/-- C10: when the primary rectangle-rule integration is performed and every
collected power sample is nonnegative, the resulting `energy_J` is
nonnegative (nonpositive time deltas are skipped and every included term is
a nonnegative power times a positive delta). -/
theorem claim_c10 (name : Str) (csv : PowerCSV) (rid : Str) (m : Mode)
    (headers : List Str)
    (h1 : matchPowerName name = some (rid, m))
    (h2 : csv.fieldnames = some headers) (h3 : headers ≠ [])
    (h4 : 2 ≤ (timesOf headers csv.rows).length)
    (h5 : 2 ≤ (powersOf headers csv.rows).length)
    (hnn : ∀ p ∈ powersOf headers csv.rows, 0 ≤ p) :
    ∃ r, parse_power_csv name csv = .ok r ∧
      ∃ e, r.energy_J = some e ∧ 0 ≤ e := by
  refine ⟨_, parse_power_ok name csv rid m headers h1 h2 h3,
    rectEnergy (timesOf headers csv.rows) (powersOf headers csv.rows),
    ?_, rectEnergy_nonneg _ _ hnn⟩
  exact energyOf_prim_some headers csv.rows _
    (by unfold energyPrimOf; rw [if_pos ⟨h4, h5⟩])

/-- Witness for C10 at the same concrete power log as C1. -/
theorem claim_c10_w :
    ∃ r, parse_power_csv c1Name c1Csv = .ok r ∧
      ∃ e, r.energy_J = some e ∧ 0 ≤ e :=
  claim_c10 c1Name c1Csv ("r1".toList) .A2B c1Headers
    (by with_unfolding_all rfl) rfl (by decide) (by decide) (by decide)
    (by with_unfolding_all decide)

/-- C5: when the primary rectangle-rule integration is not possible (fewer
than 2 valid time samples or fewer than 2 valid power samples), `energy_J`
is `avg_power_W * duration_s` when both are present, and absent when either
is absent. -/
theorem claim_c5 (name : Str) (csv : PowerCSV) (rid : Str) (m : Mode)
    (headers : List Str)
    (h1 : matchPowerName name = some (rid, m))
    (h2 : csv.fieldnames = some headers) (h3 : headers ≠ [])
    (h6 : ¬(2 ≤ (timesOf headers csv.rows).length ∧
      2 ≤ (powersOf headers csv.rows).length)) :
    ∃ r, parse_power_csv name csv = .ok r ∧
      (∀ a d, r.avg_power_W = some a → r.duration_s = some d →
        r.energy_J = some (a * d)) ∧
      ((r.avg_power_W = none ∨ r.duration_s = none) →
        r.energy_J = none) := by
  refine ⟨_, parse_power_ok name csv rid m headers h1 h2 h3, ?_, ?_⟩
  all_goals
    have hprim : energyPrimOf headers csv.rows = none := by
      unfold energyPrimOf
      rw [if_neg h6]
  · intro a d ha hd
    show energyOf headers csv.rows = some (a * d)
    have ha' : avgOf headers csv.rows = some a := ha
    have hd' : durOf headers csv.rows = some d := hd
    unfold energyOf
    rw [hprim, ha', hd']
  · intro hor
    show energyOf headers csv.rows = none
    unfold energyOf
    rw [hprim]
    rcases hor with h | h
    · have h' : avgOf headers csv.rows = none := h
      rw [h']
    · have h' : durOf headers csv.rows = none := h
      cases havg : avgOf headers csv.rows with
      | none => rfl
      | some a => rw [h']

def c5Name : Str := "run_r5_B2A.csv".toList
def c5THdr : Str := "Elapsed Time (sec)".toList
def c5PHdr : Str := "CPU Power (Watt)".toList
def c5Headers : List Str := [c5THdr, c5PHdr]
def c5Csv : PowerCSV :=
  ⟨some c5Headers,
   [[(c5THdr, some 0), (c5PHdr, some 5)],
    [(c5THdr, some 10), (c5PHdr, none)]]⟩

/-- Witness for C5: one valid power sample (5 W) and two time samples
(0 s, 10 s): the primary integration is impossible, `avg_power_W = 5`,
`duration_s = 10`, and the fallback gives energy `5 * 10 = 50`. -/
theorem claim_c5_w :
    ∃ r, parse_power_csv c5Name c5Csv = .ok r ∧
      r.avg_power_W = some 5 ∧ r.duration_s = some 10 ∧
      r.energy_J = some (5 * 10) := by
  obtain ⟨r, hok, hfun, -⟩ := claim_c5 c5Name c5Csv ("r5".toList) .B2A
    c5Headers (by with_unfolding_all rfl) rfl (by decide) (by decide)
  have hval : parse_power_csv c5Name c5Csv =
      .ok { run_id := "r5".toList, mode := .B2A,
            avg_power_W := some 5, duration_s := some 10,
            energy_J := some 50, powerlog_file := some c5Name,
            power_col_used := some c5PHdr,
            time_col_used := some c5THdr } := by
    with_unfolding_all rfl
  rw [hval] at hok
  have hre := Except.ok.inj hok
  refine ⟨r, by rw [hval, hre], ?_, ?_, ?_⟩
  · rw [← hre]
  · rw [← hre]
  · exact hfun 5 10 (by rw [← hre]) (by rw [← hre])

/-- The line scanner never touches the `summary_file` field. -/
theorem stepLine_summary_file (st : Sect × SummaryRecord) (line : Str) :
    (stepLine st line).2.summary_file = st.2.summary_file := by
  obtain ⟨sec, out⟩ := st
  unfold stepLine
  dsimp only
  split_ifs <;> cases sec <;> rfl

/-- Folding the line scanner preserves `summary_file`. -/
theorem foldl_stepLine_summary_file :
    ∀ (lines : List Str) (st : Sect × SummaryRecord),
      (lines.foldl stepLine st).2.summary_file = st.2.summary_file := by
  intro lines
  induction lines with
  | nil => intro st; rfl
  | cons l ls ih =>
    intro st
    rw [List.foldl_cons, ih (stepLine st l), stepLine_summary_file]

/-- The derived-order-effect rule never touches `summary_file`. -/
theorem deriveOrder_summary_file (out : SummaryRecord) :
    (deriveOrder out).summary_file = out.summary_file := by
  unfold deriveOrder
  cases out.order_effect_bits with
  | some _ => rfl
  | none => cases out.delta_H_A2B_bits <;> cases out.delta_H_B2A_bits <;> rfl

/-- A successfully parsed summary record carries its own file name. -/
theorem parse_summary_file (name : Str) (lines : List Str)
    (s : SummaryRecord) (h : parse_summary name lines = .ok s) :
    s.summary_file = name := by
  unfold parse_summary at h
  cases hm : matchSummaryName name with
  | none => rw [hm] at h; exact Except.noConfusion h
  | some rm =>
    obtain ⟨rid, m⟩ := rm
    rw [hm] at h
    have hs := Except.ok.inj h
    rw [← hs, deriveOrder_summary_file]
    unfold scanSummary
    rw [foldl_stepLine_summary_file]
    rfl

/-- A successfully built row carries the summary file's name. -/
theorem processOne_summary_file (pmap : List (Str × PowerCSV))
    (f : Str × List Str) (y : Row) (h : processOne pmap f = .ok y) :
    y.summary_file = f.1 := by
  unfold processOne at h
  split at h
  · exact Except.noConfusion h
  · rename_i s hps
    have hname := parse_summary_file f.1 f.2 s hps
    split at h
    · split at h
      · exact Except.noConfusion h
      · rw [← Except.ok.inj h]; exact hname
    · rw [← Except.ok.inj h]; exact hname

/-- A row built from a listed file occurs in a successful run's output. -/
theorem buildRows_mem {α : Type} (proc : α → Except Str Row) :
    ∀ (l : List α) (rows : List Row), buildRows proc l = .ok rows →
      ∀ f ∈ l, ∀ y, proc f = .ok y → y ∈ rows := by
  intro l
  induction l with
  | nil => intro rows _ f hf; simp at hf
  | cons a as ih =>
    intro rows h f hf y hy
    unfold buildRows at h
    split at h
    · exact Except.noConfusion h
    · rename_i row hrow
      split at h
      · exact Except.noConfusion h
      · rename_i rest hrest
        rw [← Except.ok.inj h]
        rcases List.mem_cons.mp hf with hfa | hfs
        · subst hfa
          rw [hrow] at hy
          rw [← Except.ok.inj hy]
          exact List.mem_cons_self row rest
        · exact List.mem_cons_of_mem row (ih rest hrest f hfs y hy)

/-- C6: a discovered summary whose expected power-log name
`run_<run_id>_<mode>.csv` is absent from the power map still yields a row
— with every power field (`energy_J`, `avg_power_W`, `duration_s`,
`powerlog_file`, `power_col_used`, `time_col_used`) absent — and raises no
error. -/
theorem claim_c6 (d : LogsDir) (f : Str × List Str) (s : SummaryRecord)
    (rows : List Row)
    (hf : f ∈ sortedSummaries d)
    (hs : parse_summary f.1 f.2 = .ok s)
    (hmiss : (powerMap d).lookup (expectedPowerName s.run_id s.mode) = none)
    (hagg : aggregate d = .ok rows) :
    processOne (powerMap d) f = .ok (mkRow s none) ∧
    mkRow s none ∈ rows ∧
    (mkRow s none).energy_J = none ∧ (mkRow s none).avg_power_W = none ∧
    (mkRow s none).duration_s = none ∧
    (mkRow s none).powerlog_file = none ∧
    (mkRow s none).power_col_used = none ∧
    (mkRow s none).time_col_used = none := by
  have hpo : processOne (powerMap d) f = .ok (mkRow s none) := by
    unfold processOne
    rw [hs]
    show (match (powerMap d).lookup (expectedPowerName s.run_id s.mode) with
      | some csv =>
        match parse_power_csv (expectedPowerName s.run_id s.mode) csv with
        | Except.error e => (Except.error e : Except Str Row)
        | Except.ok p => Except.ok (mkRow s (some p))
      | none => Except.ok (mkRow s none)) = Except.ok (mkRow s none)
    rw [hmiss]
  exact ⟨hpo, buildRows_mem _ _ rows hagg f hf _ hpo,
    rfl, rfl, rfl, rfl, rfl, rfl⟩

def c6Name : Str := "summary_x_A2B.txt".toList
def c6Dir : LogsDir :=
  ⟨[(c6Name, [])], [("run_x_B2A.csv".toList, ⟨none, []⟩)]⟩
def c6Sum : SummaryRecord :=
  deriveOrder (scanSummary ("x".toList) .A2B c6Name [])

/-- Witness for C6: a directory holding one summary and a power log under
a non-matching name (`run_x_B2A.csv` instead of `run_x_A2B.csv`). -/
theorem claim_c6_w :
    processOne (powerMap c6Dir) (c6Name, []) = .ok (mkRow c6Sum none) ∧
    mkRow c6Sum none ∈ [mkRow c6Sum none] ∧
    (mkRow c6Sum none).energy_J = none ∧
    (mkRow c6Sum none).avg_power_W = none ∧
    (mkRow c6Sum none).duration_s = none ∧
    (mkRow c6Sum none).powerlog_file = none ∧
    (mkRow c6Sum none).power_col_used = none ∧
    (mkRow c6Sum none).time_col_used = none :=
  claim_c6 c6Dir (c6Name, []) c6Sum [mkRow c6Sum none]
    (by with_unfolding_all decide)
    (by with_unfolding_all rfl)
    (by with_unfolding_all rfl)
    (by with_unfolding_all rfl)

/-- `strLe` is total. -/
theorem strLe_total : ∀ (a b : Str), strLe a b = true ∨ strLe b a = true := by
  intro a
  induction a with
  | nil => intro b; left; rfl
  | cons c cs ih =>
    intro b
    cases b with
    | nil => right; rfl
    | cons d ds =>
      unfold strLe
      rcases Nat.lt_trichotomy c.toNat d.toNat with h | h | h
      · left; rw [if_pos h]
      · rcases ih ds with hcd | hdc
        · left
          rw [if_neg (show ¬c.toNat < d.toNat by omega),
            if_neg (show ¬d.toNat < c.toNat by omega)]
          exact hcd
        · right
          rw [if_neg (show ¬d.toNat < c.toNat by omega),
            if_neg (show ¬c.toNat < d.toNat by omega)]
          exact hdc
      · right; rw [if_pos h]

/-- `strLe` is transitive. -/
theorem strLe_trans : ∀ (a b c : Str),
    strLe a b = true → strLe b c = true → strLe a c = true := by
  intro a
  induction a with
  | nil => intro b c _ _; rfl
  | cons x xs ih =>
    intro b c hab hbc
    cases b with
    | nil => exact absurd hab (by simp [strLe])
    | cons y ys =>
      cases c with
      | nil => exact absurd hbc (by simp [strLe])
      | cons z zs =>
        unfold strLe at hab hbc ⊢
        by_cases h1 : x.toNat < y.toNat
        · by_cases h2 : y.toNat < z.toNat
          · rw [if_pos (Nat.lt_trans h1 h2)]
          · rw [if_neg h2] at hbc
            by_cases h3 : z.toNat < y.toNat
            · rw [if_pos h3] at hbc; exact absurd hbc (by simp)
            · rw [if_pos (show x.toNat < z.toNat by omega)]
        · rw [if_neg h1] at hab
          by_cases h4 : y.toNat < x.toNat
          · rw [if_pos h4] at hab; exact absurd hab (by simp)
          · rw [if_neg h4] at hab
            by_cases h2 : y.toNat < z.toNat
            · rw [if_pos (show x.toNat < z.toNat by omega)]
            · rw [if_neg h2] at hbc
              by_cases h3 : z.toNat < y.toNat
              · rw [if_pos h3] at hbc; exact absurd hbc (by simp)
              · rw [if_neg h3] at hbc
                rw [if_neg (show ¬x.toNat < z.toNat by omega),
                  if_neg (show ¬z.toNat < x.toNat by omega)]
                exact ih ys zs hab hbc

/-- Membership in an insertion. -/
theorem insertS_mem {α : Type} (le : α → α → Bool) (x z : α) :
    ∀ (l : List α), z ∈ insertS le x l ↔ z = x ∨ z ∈ l := by
  intro l
  induction l with
  | nil => simp [insertS]
  | cons y ys ih =>
    unfold insertS
    by_cases hle : le y x = true
    · rw [if_pos hle]
      simp only [List.mem_cons, ih]
      tauto
    · rw [if_neg hle]
      simp only [List.mem_cons]

/-- Insertion preserves sortedness for a total transitive comparison. -/
theorem insertS_pairwise {α : Type} (le : α → α → Bool)
    (htrans : ∀ a b c, le a b = true → le b c = true → le a c = true)
    (htot : ∀ a b, le a b = true ∨ le b a = true) (x : α) :
    ∀ (l : List α), l.Pairwise (fun a b => le a b = true) →
      (insertS le x l).Pairwise (fun a b => le a b = true) := by
  intro l
  induction l with
  | nil =>
    intro _
    exact List.pairwise_cons.mpr ⟨by simp, List.Pairwise.nil⟩
  | cons y ys ih =>
    intro hp
    obtain ⟨hy, hys⟩ := List.pairwise_cons.mp hp
    unfold insertS
    by_cases hle : le y x = true
    · rw [if_pos hle]
      apply List.pairwise_cons.mpr
      refine ⟨?_, ih hys⟩
      intro z hz
      rcases (insertS_mem le x z ys).mp hz with hzx | hzys
      · subst hzx; exact hle
      · exact hy z hzys
    · rw [if_neg hle]
      have hxy : le x y = true := by
        rcases htot x y with h | h
        · exact h
        · exact absurd h hle
      apply List.pairwise_cons.mpr
      refine ⟨?_, hp⟩
      intro z hz
      rcases List.mem_cons.mp hz with hzy | hzys
      · subst hzy; exact hxy
      · exact htrans x y z hxy (hy z hzys)

/-- The insertion sort produces a sorted list. -/
theorem sortS_pairwise {α : Type} (le : α → α → Bool)
    (htrans : ∀ a b c, le a b = true → le b c = true → le a c = true)
    (htot : ∀ a b, le a b = true ∨ le b a = true) (l : List α) :
    (sortS le l).Pairwise (fun a b => le a b = true) := by
  suffices h : ∀ (l acc : List α),
      acc.Pairwise (fun a b => le a b = true) →
      (l.foldl (fun acc x => insertS le x acc) acc).Pairwise
        (fun a b => le a b = true) from h l [] List.Pairwise.nil
  intro l
  induction l with
  | nil => intro acc h; exact h
  | cons a as ih =>
    intro acc h
    rw [List.foldl_cons]
    exact ih _ (insertS_pairwise le htrans htot a acc h)

/-- The names of a successful run's rows, in order. -/
theorem buildRows_names {α : Type} (proc : α → Except Str Row) (g : α → Str)
    (hproc : ∀ f y, proc f = .ok y → y.summary_file = g f) :
    ∀ (l : List α) (rows : List Row), buildRows proc l = .ok rows →
      rows.map (fun r => r.summary_file) = l.map g := by
  intro l
  induction l with
  | nil =>
    intro rows h
    rw [← Except.ok.inj h]
    rfl
  | cons a as ih =>
    intro rows h
    unfold buildRows at h
    split at h
    · exact Except.noConfusion h
    · rename_i row hrow
      split at h
      · exact Except.noConfusion h
      · rename_i rest hrest
        rw [← Except.ok.inj h]
        simp only [List.map_cons]
        rw [hproc a row hrow, ih rest hrest]

/-- C8: the aggregator's output is a deterministic function of the
directory contents (`aggregate` is a pure function), its rows are in
bijection with the sorted summary file names, and that name sequence is
sorted, so two runs on the same directory write byte-identical tables. -/
theorem claim_c8 (d : LogsDir) (rows : List Row)
    (hagg : aggregate d = .ok rows) :
    rows.map (fun r => r.summary_file) =
      (sortedSummaries d).map (fun f => f.1) ∧
    (rows.map (fun r => r.summary_file)).Pairwise
      (fun a b => strLe a b = true) := by
  have h1 := buildRows_names (processOne (powerMap d)) (fun f => f.1)
    (fun f y hy => processOne_summary_file (powerMap d) f y hy)
    (sortedSummaries d) rows hagg
  refine ⟨h1, ?_⟩
  rw [h1]
  have hp := sortS_pairwise (fun a b : Str × List Str => strLe a.1 b.1)
    (fun a b c hab hbc => strLe_trans a.1 b.1 c.1 hab hbc)
    (fun a b => strLe_total a.1 b.1)
    (d.txtFiles.filter (fun f => globMatch summaryPre txtExt f.1))
  unfold sortedSummaries
  exact List.Pairwise.map (fun f : Str × List Str => f.1)
    (fun a b hab => hab) hp

def c8Dir : LogsDir :=
  ⟨[("summary_b_A2B.txt".toList, []), ("summary_a_A2B.txt".toList, [])], []⟩
def c8RowA : Row :=
  mkRow (deriveOrder (scanSummary ("a".toList) .A2B
    ("summary_a_A2B.txt".toList) [])) none
def c8RowB : Row :=
  mkRow (deriveOrder (scanSummary ("b".toList) .A2B
    ("summary_b_A2B.txt".toList) [])) none

/-- Witness for C8: two summaries listed out of name order come out
sorted, and the output is a function of the directory. -/
theorem claim_c8_w :
    aggregate c8Dir = .ok [c8RowA, c8RowB] ∧
    ([c8RowA, c8RowB].map (fun r => r.summary_file) =
      (sortedSummaries c8Dir).map (fun f => f.1) ∧
     ([c8RowA, c8RowB].map (fun r => r.summary_file)).Pairwise
      (fun a b => strLe a b = true)) := by
  have hagg : aggregate c8Dir = .ok [c8RowA, c8RowB] := by
    with_unfolding_all rfl
  exact ⟨hagg, claim_c8 c8Dir [c8RowA, c8RowB] hagg⟩

def c7Name : Str := "summary_run1_A2B.csv".toList
def c7DataRow : List (Str × Str) :=
  [("H_before_A2B_bits".toList, "3.0".toList),
   ("H_after_A2B_bits".toList, "1.5".toList),
   ("delta_H_A2B_bits".toList, "-1.5".toList)]
def c7Dir : TabDir := ⟨[(c7Name, [c7DataRow])], []⟩
def c7Sum : SummaryRecord :=
  { run_id := "run1".toList, mode := .A2B,
    H_before_A2B_bits := some 3, H_after_A2B_bits := some (3 / 2),
    delta_H_A2B_bits := some (-(3 / 2)),
    H_before_B2A_bits := none, H_after_B2A_bits := none,
    delta_H_B2A_bits := none,
    order_effect_bits := none, summary_file := c7Name }

/-- C7: aggregating a directory holding the single tabular summary
`summary_run1_A2B.csv` with `H_before_A2B_bits=3.0`,
`H_after_A2B_bits=1.5`, `delta_H_A2B_bits=-1.5` and no power log yields
exactly one row carrying those three values, with every power field and
`powerlog_file` absent. -/
theorem claim_c7 :
    aggregateTab c7Dir = .ok [mkRow c7Sum none] ∧
    (mkRow c7Sum none).run_id = "run1".toList ∧
    (mkRow c7Sum none).mode = .A2B ∧
    (mkRow c7Sum none).H_before_A2B_bits = some 3 ∧
    (mkRow c7Sum none).H_after_A2B_bits = some (3 / 2) ∧
    (mkRow c7Sum none).delta_H_A2B_bits = some (-(3 / 2)) ∧
    (mkRow c7Sum none).energy_J = none ∧
    (mkRow c7Sum none).avg_power_W = none ∧
    (mkRow c7Sum none).duration_s = none ∧
    (mkRow c7Sum none).powerlog_file = none ∧
    (mkRow c7Sum none).power_col_used = none ∧
    (mkRow c7Sum none).time_col_used = none :=
  ⟨by with_unfolding_all rfl, rfl, rfl, rfl, rfl, rfl,
   rfl, rfl, rfl, rfl, rfl, rfl⟩
